import Mathlib

/-!
Verification of `pybackpack.commands`

A shallow embedding of the command-composition engine in
`src/libs/pybackpack/pybackpack/commands.py`: the `CommandResult` data
model, the `Command.run` / `Command.async_run` wrappers, and the three
combinators `PipeCommand`, `SequentialCommand`, `ParallelCommand`.

Python values are modelled by `Val` (with `Val.none` for Python `None`),
exceptions by `Exc`, and the mutable object state of each command
(`input_data`, `result`, `_pipeline_failed`, `_last_result`, `_outputs`)
is carried inside the `Cmd` tree; running a command returns the produced
`CommandResult` together with the updated tree.
-/

/-- Python exceptions, as far as the engine distinguishes them:
a constructor tag plus the message carried to `str(ex)`. -/
inductive Exc where
  | valueError (msg : String)
  | typeError (msg : String)
  | systemError (msg : String)
  | attributeError (msg : String)
  | unboundLocalError (msg : String)
  deriving DecidableEq, Repr

/-- `str(ex)`: the message of the exception. -/
def Exc.msg : Exc → String
  | .valueError m => m
  | .typeError m => m
  | .systemError m => m
  | .attributeError m => m
  | .unboundLocalError m => m

/-- Python values as the engine passes them around. `Val.none` is Python
`None`; lists model the Python lists built by the combinators. -/
inductive Val where
  | none
  | str (s : String)
  | int (n : Int)
  | bool (b : Bool)
  | list (l : List Val)

/-- The `CommandResult` dataclass (commands.py, lines 7-23), with the
Python field defaults. -/
structure CommandResult where
  output : Val
  succeeded : Bool := true
  error : Option Exc := Option.none
  error_message : Option String := Option.none
  metadata : Val := Val.none

/-- The `operator` values accepted by `SequentialCommand`: the Python
strings `"&&"` and `"||"`; Python `None` is modelled as `Option.none`
around this type. -/
inductive Op where
  | andOp
  | orOp
  deriving DecidableEq, Repr

/-- A command tree carrying its mutable object state.

* `leaf` is an arbitrary user `Command` subclass: its `_run`
  (and `_async_run`) body is a function of the stored `input_data`
  that either returns a `CommandResult` or raises.
* `pipe` is a `PipeCommand` with its `input_data`, `result`,
  `_pipeline_failed` and `_last_result` attributes.
* `seq` is a `SequentialCommand` with `operator`, `collect_outputs`
  and its `_outputs` accumulator.
* `par` is a `ParallelCommand` (`collect_outputs` flag; the pool size
  does not affect the result model). -/
inductive Cmd where
  | leaf (behavior : Val → Except Exc CommandResult)
      (input_data : Val) (result : Option CommandResult)
  | pipe (commands : List Cmd) (input_data : Val)
      (result : Option CommandResult)
      (pipeline_failed : Bool) (last_result : Option CommandResult)
  | seq (commands : List Cmd) (operator : Option Op)
      (collect_outputs : Bool) (outputs : List Val)
      (input_data : Val) (result : Option CommandResult)
  | par (commands : List Cmd) (collect_outputs : Bool)
      (input_data : Val) (result : Option CommandResult)

/-- `Command._handle_error` (lines 48-62). -/
def handle_error (error : Exc) : CommandResult :=
  { output := Val.none
    succeeded := false
    error := some error
    error_message := some error.msg }

/-- `Command._set_input` (lines 64-72): a non-`None` argument replaces
the stored `input_data`. -/
def set_input (stored input_data : Val) : Val :=
  match input_data with
  | Val.none => stored
  | v => v

/-- `PipeCommand._last_output` (lines 188-196). -/
def pipe_last_output (input_data : Val)
    (last_result : Option CommandResult) : Val :=
  match last_result with
  | some r => r.output
  | Option.none => input_data

/-- `PipeCommand._final_result` (lines 173-186). On the failed path the
stored `_last_result` is returned as is; on the success path a fresh
result is built from its `output` (accessing `.output` of `None` raises
`AttributeError`; with `_pipeline_failed` set `_last_result` is always
set, so that branch of the Python code cannot return `None` after any
real run). -/
def pipe_final_result (pipeline_failed : Bool)
    (last_result : Option CommandResult) : Except Exc CommandResult :=
  if pipeline_failed then
    match last_result with
    | some r => .ok r
    | Option.none =>
        .error (.attributeError "NoneType object has no attribute output")
  else
    match last_result with
    | some r => .ok { output := r.output }
    | Option.none =>
        .error (.attributeError "NoneType object has no attribute output")

/-- `SequentialCommand._evaluate_result` without the collection side
effect (lines 271-277): whether the loop continues. -/
def seq_continue (operator : Option Op) (r : CommandResult) : Bool :=
  if !r.succeeded && operator = some Op.andOp then false
  else if r.succeeded && operator = some Op.orOp then false
  else true

/-- `SequentialCommand._final_result` (lines 279-301), returning the
result together with the updated `_outputs` attribute (which the Python
method overwrites when `collect_outputs` is off). -/
def seq_final_result (operator : Option Op) (collect_outputs : Bool)
    (outputs : List Val) (result : CommandResult) :
    CommandResult × List Val :=
  let outputs := if collect_outputs then outputs else [result.output]
  let succeeded := if operator.isSome then result.succeeded else true
  ({ output := Val.list outputs, succeeded := succeeded }, outputs)

/-- Assignment `command.result = results[i]` in the parent process:
only the `result` attribute of the (unpickled, unmodified) original
child changes. -/
def Cmd.withResult : Cmd → Option CommandResult → Cmd
  | .leaf behavior input_data _, r => .leaf behavior input_data r
  | .pipe commands input_data _ pf lr, r => .pipe commands input_data r pf lr
  | .seq commands op collect outputs input_data _, r =>
      .seq commands op collect outputs input_data r
  | .par commands collect input_data _, r => .par commands collect input_data r

mutual

/-- `Command.run` / `Command.async_run` (lines 74-121): set the input,
execute `_run` (`_async_run` when `asyncMode` is true) catching any
exception through `_handle_error`, store the result on the object and
return it. The two wrappers differ only in which `_run` they dispatch
to, and the only `_run`/`_async_run` pair that differ from each other
is `ParallelCommand`'s. -/
def Cmd.runWith (asyncMode : Bool) : Cmd → Val → CommandResult × Cmd
  | .leaf behavior input_data _, input =>
      let d := set_input input_data input
      match behavior d with
      | .ok r => (r, .leaf behavior d (some r))
      | .error e =>
          let r := handle_error e
          (r, .leaf behavior d (some r))
  | .pipe commands input_data _ pipeline_failed last_result, input =>
      let d := set_input input_data input
      match pipeRunWith asyncMode commands d last_result pipeline_failed with
      | (commands', last_result', pipeline_failed') =>
        match pipe_final_result pipeline_failed' last_result' with
        | .ok r =>
            (r, .pipe commands' d (some r) pipeline_failed' last_result')
        | .error e =>
            let r := handle_error e
            (r, .pipe commands' d (some r) pipeline_failed' last_result')
  | .seq commands operator collect_outputs outputs input_data _, input =>
      let d := set_input input_data input
      match seqRunWith asyncMode commands operator collect_outputs outputs with
      | (commands', outputs', lastRes) =>
        match lastRes with
        | some res =>
            match seq_final_result operator collect_outputs outputs' res with
            | (r, outputs'') =>
              (r, .seq commands' operator collect_outputs outputs'' d (some r))
        | Option.none =>
            -- empty loop: `result` is unbound in `_final_result(result)`
            let r := handle_error (.unboundLocalError
              "local variable result referenced before assignment")
            (r, .seq commands' operator collect_outputs outputs' d (some r))
  | .par commands collect_outputs input_data _, input =>
      let d := set_input input_data input
      if asyncMode then
        -- `ParallelCommand._async_run` raises; `async_run` normalizes it
        let r := handle_error
          (.typeError "ParallelCommand does not support async run")
        (r, .par commands collect_outputs d (some r))
      else
        match parRun commands with
        | (commands', results) =>
          let outputs :=
            if collect_outputs then Val.list (results.map (·.output))
            else Val.none
          let r : CommandResult := { output := outputs }
          (r, .par commands' collect_outputs d (some r))
termination_by c _ => sizeOf c

/-- The loop of `PipeCommand._run` / `_async_run` (lines 198-212):
feeds `_last_output()` to each child, records the result through
`_evaluate_result` (lines 155-171), and breaks at the first failure,
leaving the remaining children untouched. Returns the updated children
and the final `_last_result` / `_pipeline_failed` attributes. -/
def pipeRunWith (asyncMode : Bool) : List Cmd → Val →
    Option CommandResult → Bool →
    List Cmd × Option CommandResult × Bool
  | [], _, last_result, pipeline_failed => ([], last_result, pipeline_failed)
  | c :: cs, input_data, last_result, pipeline_failed =>
      match c.runWith asyncMode (pipe_last_output input_data last_result) with
      | (res, c') =>
        if res.succeeded then
          match pipeRunWith asyncMode cs input_data (some res) pipeline_failed with
          | (cs', lr', pf') => (c' :: cs', lr', pf')
        else
          (c' :: cs, some res, true)
termination_by cs _ _ _ => sizeOf cs

/-- The loop of `SequentialCommand._run` / `_async_run`
(lines 303-317): runs each child with no input, appends its output to
`_outputs` when collecting (lines 268-269), and stops per
`_evaluate_result`. Returns the updated children, the `_outputs`
attribute, and the `result` variable after the loop (`none` when the
list was empty and `result` is left unbound). -/
def seqRunWith (asyncMode : Bool) : List Cmd → Option Op → Bool →
    List Val → List Cmd × List Val × Option CommandResult
  | [], _, _, outputs => ([], outputs, Option.none)
  | c :: cs, operator, collect_outputs, outputs =>
      match c.runWith asyncMode Val.none with
      | (res, c') =>
        let outputs' :=
          if collect_outputs then outputs ++ [res.output] else outputs
        if seq_continue operator res then
          match seqRunWith asyncMode cs operator collect_outputs outputs' with
          | (cs', outs'', lastRes) =>
            (c' :: cs', outs'', some (lastRes.getD res))
        else
          (c' :: cs, outputs', some res)
termination_by cs _ _ _ => sizeOf cs

/-- `ParallelCommand._run` (lines 367-386): each child runs in its own
process (`pool.map(_execute_command, self.commands)`), so any state the
child run mutates is lost; only the returned `CommandResult` comes back
and is copied onto the original child's `result` attribute. The pool
gathers results in child order. -/
def parRun : List Cmd → List Cmd × List CommandResult
  | [] => ([], [])
  | c :: cs =>
      match c.runWith false Val.none with
      | (res, _) =>
        match parRun cs with
        | (cs', results) => (Cmd.withResult c (some res) :: cs', res :: results)
termination_by cs => sizeOf cs

end

/-- `Command.run` (synchronous path). -/
def Cmd.run (c : Cmd) (input : Val) : CommandResult × Cmd :=
  c.runWith false input

/-- `Command.async_run` (suspendable path). -/
def Cmd.asyncRun (c : Cmd) (input : Val) : CommandResult × Cmd :=
  c.runWith true input

/-- `PipeCommand.__init__` (lines 142-153): `Option.none` models passing
Python `None` for the commands list; `if not commands` rejects both
`None` and the empty list. The attributes `_pipeline_failed` and
`_last_result` start as `False` / `None`. -/
def PipeCommand.mk (commands : Option (List Cmd))
    (input_data : Val) : Except Exc Cmd :=
  match commands with
  | Option.none | some [] =>
      .error (.valueError "Commands list cannot be None or empty")
  | some cs => .ok (.pipe cs input_data Option.none false Option.none)

/-- `SequentialCommand.__init__` (lines 240-256): rejects a `None` or
empty commands list; the `_outputs` accumulator starts empty. The
operator check (`operator not in ["&&", "||", None]`) is vacuous here
because `Option Op` only represents the three accepted values. -/
def SequentialCommand.mk (commands : Option (List Cmd))
    (operator : Option Op) (collect_outputs : Bool) : Except Exc Cmd :=
  match commands with
  | Option.none | some [] =>
      .error (.valueError "Commands list cannot be None or empty")
  | some cs =>
      .ok (.seq cs operator collect_outputs [] Val.none Option.none)

/-- `ParallelCommand.__init__` (lines 353-365): unlike the other two
composites, only a `None` commands list is rejected (`if commands is
None`); an empty list passes the check. -/
def ParallelCommand.mk (commands : Option (List Cmd))
    (collect_outputs : Bool) : Except Exc Cmd :=
  match commands with
  | Option.none => .error (.valueError "Commands list cannot be None")
  | some cs => .ok (.par cs collect_outputs Val.none Option.none)

/-- The `result` attribute of a command object. -/
def Cmd.resultOf : Cmd → Option CommandResult
  | .leaf _ _ r => r
  | .pipe _ _ r _ _ => r
  | .seq _ _ _ _ _ r => r
  | .par _ _ _ r => r

/-- The `_pipeline_failed` attribute of a `PipeCommand` (`false` for
the other command classes, which do not have it). -/
def Cmd.pipelineFailedOf : Cmd → Bool
  | .pipe _ _ _ pf _ => pf
  | _ => false

/-- The children (`commands` attribute) of a composite command. -/
def Cmd.childrenOf : Cmd → List Cmd
  | .leaf _ _ _ => []
  | .pipe cs _ _ _ _ => cs
  | .seq cs _ _ _ _ _ => cs
  | .par cs _ _ _ => cs

/-! ## Reference folds

Functional restatements of the loops, used to express the claims about
which children execute and what each one is invoked with. They are
proved equivalent to the embedded loops below. -/

/-- Reference fold for a `PipeCommand` run over a non-empty child list,
following §4.2 of the spec (as amended): run the children in order,
each invoked with the previous child's output (the first with `cur`),
stop at the first failure leaving the remaining children untouched.
Returns the last executed child's raw result and the updated children. -/
def pipeSpecRun (m : Bool) : Cmd → List Cmd → Val → CommandResult × List Cmd
  | c, [], cur =>
      match c.runWith m cur with
      | (r, c') => (r, [c'])
  | c, c2 :: cs, cur =>
      match c.runWith m cur with
      | (r, c') =>
        if r.succeeded then
          match pipeSpecRun m c2 cs r.output with
          | (rl, cs') => (rl, c' :: cs')
        else (r, c' :: c2 :: cs)

/-- Reference fold for a `SequentialCommand` run over a non-empty child
list, following §4.3 of the spec (as amended): run the children in
order, each invoked with no input, stop per the operator's continuation
rule, leaving the remaining children untouched. Returns the last
executed child's result, the list of all executed children's results in
execution order, and the updated children. -/
def seqExec (m : Bool) (operator : Option Op) :
    Cmd → List Cmd → CommandResult × List CommandResult × List Cmd
  | c, [] =>
      match c.runWith m Val.none with
      | (r, c') => (r, [r], [c'])
  | c, c2 :: cs2 =>
      match c.runWith m Val.none with
      | (r, c') =>
        if seq_continue operator r then
          match seqExec m operator c2 cs2 with
          | (last, rs, cs') => (last, r :: rs, c' :: cs')
        else (r, [r], c' :: c2 :: cs2)

/-! ## Concrete leaf commands (used as test inputs) -/

/-- The string content of a `Val`, as `AddCharCommand` reads it. -/
def strOf : Val → String
  | .str s => s
  | _ => ""

/-- `AddCharCommand` from the test suite: appends a fixed token to its
(string) input. -/
def addChar (token : String) : Cmd :=
  .leaf (fun i => .ok { output := Val.str (strOf i ++ token) })
    Val.none Option.none

/-- `ErrorCommand(raise_error=False)`: reports failure without raising. -/
def failLeaf : Cmd :=
  .leaf (fun _ => .ok { output := Val.none, succeeded := false,
                        error_message := some "Error from ErrorCommand" })
    Val.none Option.none

/-- The `_run` body of `ErrorCommand(raise_error=True)`: always raises
`SystemError`. -/
def raiseB : Val → Except Exc CommandResult :=
  fun _ => .error (.systemError "Error from ErrorCommand")

/-- `ErrorCommand(raise_error=True)`: raises `SystemError`. -/
def raiseLeaf : Cmd :=
  .leaf raiseB Val.none Option.none

/-- A command that succeeds with a fixed success flag and no output. -/
def boolLeaf (s : Bool) : Cmd :=
  .leaf (fun _ => .ok { output := Val.none, succeeded := s })
    Val.none Option.none

/-- A command that returns its effective input as its output. -/
def echoLeaf (own : Val) : Cmd :=
  .leaf (fun i => .ok { output := i }) own Option.none

/-- A command that succeeds but sets an `error_message` (allowed by the
`CommandResult` model: `succeeded=true` with a message, no error). -/
def warnLeaf : Cmd :=
  .leaf (fun _ => .ok { output := Val.int 1,
                        error_message := some "warning" })
    Val.none Option.none

/-- The provable half of the §3 result invariant for one result:
a successful result carries no `error`. -/
def resultNorm (r : CommandResult) : Prop :=
  r.succeeded = true → r.error = Option.none

/-- A command tree whose leaves only return results satisfying
`resultNorm`, and whose stored `_last_result` attributes (the only
state a `PipeCommand` can replay as its own result) satisfy it too. -/
inductive NormOk : Cmd → Prop where
  | leaf {behavior : Val → Except Exc CommandResult} {d : Val}
      {res : Option CommandResult}
      (hb : ∀ v r, behavior v = .ok r → resultNorm r) :
      NormOk (.leaf behavior d res)
  | pipe {cs : List Cmd} {d : Val} {res : Option CommandResult}
      {pf : Bool} {lr : Option CommandResult}
      (hcs : ∀ c ∈ cs, NormOk c)
      (hlr : ∀ r, lr = some r → resultNorm r) :
      NormOk (.pipe cs d res pf lr)
  | seq {cs : List Cmd} {op : Option Op} {collect : Bool}
      {outs : List Val} {d : Val} {res : Option CommandResult}
      (hcs : ∀ c ∈ cs, NormOk c) :
      NormOk (.seq cs op collect outs d res)
  | par {cs : List Cmd} {collect : Bool} {d : Val}
      {res : Option CommandResult}
      (hcs : ∀ c ∈ cs, NormOk c) :
      NormOk (.par cs collect d res)

/-! ## Characterization of the embedded runs by the reference folds -/

theorem pipeRunWith_nil (m : Bool) (d : Val) (lr : Option CommandResult)
    (pf : Bool) : pipeRunWith m [] d lr pf = ([], lr, pf) := by
  rw [pipeRunWith.eq_def]

theorem pipeRunWith_cons (m : Bool) (c : Cmd) (cs : List Cmd) (d : Val)
    (lr : Option CommandResult) (pf : Bool) :
    pipeRunWith m (c :: cs) d lr pf =
      (match c.runWith m (pipe_last_output d lr) with
       | (res, c') =>
         if res.succeeded then
           match pipeRunWith m cs d (some res) pf with
           | (cs', lr', pf') => (c' :: cs', lr', pf')
         else (c' :: cs, some res, true)) := by
  rw [pipeRunWith.eq_def]

theorem seqRunWith_nil (m : Bool) (operator : Option Op) (collect : Bool)
    (outs : List Val) :
    seqRunWith m [] operator collect outs = ([], outs, Option.none) := by
  rw [seqRunWith.eq_def]

theorem seqRunWith_cons (m : Bool) (c : Cmd) (cs : List Cmd)
    (operator : Option Op) (collect : Bool) (outs : List Val) :
    seqRunWith m (c :: cs) operator collect outs =
      (match c.runWith m Val.none with
       | (res, c') =>
         let outs' := if collect then outs ++ [res.output] else outs
         if seq_continue operator res then
           match seqRunWith m cs operator collect outs' with
           | (cs', outs'', lastRes) =>
             (c' :: cs', outs'', some (lastRes.getD res))
         else (c' :: cs, outs', some res)) := by
  rw [seqRunWith.eq_def]

theorem pipeRunWith_eq (m : Bool) : ∀ (cs : List Cmd) (c : Cmd) (d : Val)
    (lr : Option CommandResult) (pf : Bool),
    pipeRunWith m (c :: cs) d lr pf
      = (match pipeSpecRun m c cs (pipe_last_output d lr) with
         | (rl, cs') => (cs', some rl, pf || !rl.succeeded)) := by
  intro cs
  induction cs with
  | nil =>
      intro c d lr pf
      rw [pipeRunWith_cons]
      cases h : c.runWith m (pipe_last_output d lr) with
      | mk r c' =>
        by_cases hs : r.succeeded = true <;>
          simp [pipeSpecRun, h, hs, pipeRunWith_nil]
  | cons c2 cs2 ih =>
      intro c d lr pf
      rw [pipeRunWith_cons]
      cases h : c.runWith m (pipe_last_output d lr) with
      | mk r c' =>
        dsimp only
        by_cases hs : r.succeeded = true
        · rw [if_pos hs, ih c2 d (some r) pf]
          have hlo : pipe_last_output d (some r) = r.output := rfl
          rw [hlo]
          simp only [pipeSpecRun, h, hs, if_true]
        · rw [if_neg hs]
          simp only [pipeSpecRun, h]
          simp [hs]

theorem seqRunWith_eq (m : Bool) (operator : Option Op) (collect : Bool) :
    ∀ (cs : List Cmd) (c : Cmd) (outs0 : List Val),
    seqRunWith m (c :: cs) operator collect outs0
      = (match seqExec m operator c cs with
         | (last, rs, cs') =>
           (cs', outs0 ++ (if collect then rs.map (·.output) else []),
            some last)) := by
  intro cs
  induction cs with
  | nil =>
      intro c outs0
      rw [seqRunWith_cons]
      cases h : c.runWith m Val.none with
      | mk r c' =>
        by_cases hs : seq_continue operator r = true <;>
          by_cases hc : collect = true <;>
            simp [seqExec, h, hs, hc, seqRunWith_nil]
  | cons c2 cs2 ih =>
      intro c outs0
      rw [seqRunWith_cons]
      cases h : c.runWith m Val.none with
      | mk r c' =>
        dsimp only
        by_cases hs : seq_continue operator r = true
        · rw [if_pos hs, ih c2 (if collect then outs0 ++ [r.output] else outs0)]
          simp only [seqExec, h, hs, if_true]
          cases hse : seqExec m operator c2 cs2 with
          | mk last rest =>
            cases rest with
            | mk rs cs' =>
              by_cases hc : collect = true <;> simp [hse, hs, hc]
        · rw [if_neg hs]
          simp only [seqExec, h]
          by_cases hc : collect = true <;> simp [hs, hc]

theorem runWith_leaf (m : Bool) (b : Val → Except Exc CommandResult)
    (d : Val) (r0 : Option CommandResult) (input : Val) :
    (Cmd.leaf b d r0).runWith m input =
      (match b (set_input d input) with
       | .ok r => (r, .leaf b (set_input d input) (some r))
       | .error e =>
           (handle_error e,
            .leaf b (set_input d input) (some (handle_error e)))) := by
  rw [Cmd.runWith.eq_def]

theorem runWith_pipe (m : Bool) (cs : List Cmd) (d : Val)
    (r0 : Option CommandResult) (pf : Bool) (lr : Option CommandResult)
    (input : Val) :
    (Cmd.pipe cs d r0 pf lr).runWith m input =
      (match pipeRunWith m cs (set_input d input) lr pf with
       | (cs', lr', pf') =>
         match pipe_final_result pf' lr' with
         | .ok r => (r, .pipe cs' (set_input d input) (some r) pf' lr')
         | .error e =>
             (handle_error e,
              .pipe cs' (set_input d input) (some (handle_error e)) pf' lr')) := by
  rw [Cmd.runWith.eq_def]

theorem runWith_seq (m : Bool) (cs : List Cmd) (op : Option Op)
    (collect : Bool) (outs : List Val) (d : Val)
    (r0 : Option CommandResult) (input : Val) :
    (Cmd.seq cs op collect outs d r0).runWith m input =
      (match seqRunWith m cs op collect outs with
       | (cs', outs', lastRes) =>
         match lastRes with
         | some res =>
             match seq_final_result op collect outs' res with
             | (r, outs'') =>
                 (r, .seq cs' op collect outs'' (set_input d input) (some r))
         | Option.none =>
             let r := handle_error (.unboundLocalError
               "local variable result referenced before assignment")
             (r, .seq cs' op collect outs' (set_input d input) (some r))) := by
  rw [Cmd.runWith.eq_def]

theorem runWith_par (m : Bool) (cs : List Cmd) (collect : Bool) (d : Val)
    (r0 : Option CommandResult) (input : Val) :
    (Cmd.par cs collect d r0).runWith m input =
      (if m then
        let r := handle_error
          (.typeError "ParallelCommand does not support async run")
        (r, .par cs collect (set_input d input) (some r))
      else
        match parRun cs with
        | (cs', results) =>
          let r : CommandResult :=
            { output := if collect then Val.list (results.map (·.output))
                        else Val.none }
          (r, .par cs' collect (set_input d input) (some r))) := by
  rw [Cmd.runWith.eq_def]

theorem parRun_eq : ∀ cs : List Cmd,
    parRun cs =
      (cs.map (fun c => c.withResult (some (c.runWith false Val.none).fst)),
       cs.map (fun c => (c.runWith false Val.none).fst)) := by
  intro cs
  induction cs with
  | nil => rw [parRun.eq_def]; simp
  | cons c cs ih =>
      rw [parRun.eq_def]
      cases h : c.runWith false Val.none with
      | mk r c' => simp [h, ih]

theorem pipe_run_eq (m : Bool) (c : Cmd) (cs : List Cmd) (d : Val)
    (r0 : Option CommandResult) (pf : Bool) (lr : Option CommandResult)
    (input : Val) :
    (Cmd.pipe (c :: cs) d r0 pf lr).runWith m input =
      (match pipeSpecRun m c cs (pipe_last_output (set_input d input) lr) with
       | (rl, cs') =>
         let final := if pf || !rl.succeeded then rl
                      else { output := rl.output }
         (final, .pipe cs' (set_input d input) (some final)
            (pf || !rl.succeeded) (some rl))) := by
  rw [runWith_pipe, pipeRunWith_eq]
  cases hsp : pipeSpecRun m c cs (pipe_last_output (set_input d input) lr) with
  | mk rl cs' =>
    by_cases hf : pf || !rl.succeeded <;>
      simp [pipe_final_result, hf]

theorem seq_run_eq (m : Bool) (op : Option Op) (collect : Bool) (c : Cmd)
    (cs : List Cmd) (outs0 : List Val) (d0 : Val)
    (r0 : Option CommandResult) (input : Val) :
    (Cmd.seq (c :: cs) op collect outs0 d0 r0).runWith m input =
      (match seqExec m op c cs with
       | (last, rs, cs') =>
         let outs1 := if collect then outs0 ++ rs.map (·.output) else outs0
         match seq_final_result op collect outs1 last with
         | (r, outs2) =>
             (r, .seq cs' op collect outs2 (set_input d0 input) (some r))) := by
  rw [runWith_seq, seqRunWith_eq]
  cases hse : seqExec m op c cs with
  | mk last rest =>
    cases rest with
    | mk rs cs' =>
      by_cases hc : collect = true <;> simp [hc]

/-! ## The result invariant (claim C9) -/

theorem sizeOf_mem_pipe {x : Cmd} {cs : List Cmd} (hx : x ∈ cs) (d : Val)
    (r0 : Option CommandResult) (pf : Bool) (lr : Option CommandResult) :
    sizeOf x < sizeOf (Cmd.pipe cs d r0 pf lr) := by
  have := List.sizeOf_lt_of_mem hx
  simp only [Cmd.pipe.sizeOf_spec]
  omega

theorem pipeSpecRun_norm (m : Bool) : ∀ (cs : List Cmd) (c : Cmd) (cur : Val),
    (∀ x ∈ c :: cs, ∀ input, resultNorm ((x.runWith m input).fst)) →
    resultNorm (pipeSpecRun m c cs cur).fst := by
  intro cs
  induction cs with
  | nil =>
      intro c cur h
      simp only [pipeSpecRun]
      cases hr : c.runWith m cur with
      | mk r c' =>
          have := h c (by simp) cur
          rw [hr] at this
          exact this
  | cons c2 cs2 ih =>
      intro c cur h
      simp only [pipeSpecRun]
      cases hr : c.runWith m cur with
      | mk r c' =>
        dsimp only
        by_cases hs : r.succeeded = true
        · rw [if_pos hs]
          cases hsp : pipeSpecRun m c2 cs2 r.output with
          | mk rl cs' =>
            have := ih c2 r.output (fun x hx input => h x (by simp at hx ⊢; tauto) input)
            rw [hsp] at this
            exact this
        · rw [if_neg hs]
          have := h c (by simp) cur
          rw [hr] at this
          exact this

theorem runWith_norm_aux : ∀ (n : ℕ) (c : Cmd), sizeOf c ≤ n → NormOk c →
    ∀ (m : Bool) (input : Val), resultNorm ((c.runWith m input).fst) := by
  intro n
  induction n using Nat.strong_induction_on with
  | _ n ihn =>
    intro c hsz hn m input
    cases c with
    | leaf b d res =>
        cases hn with
        | leaf hb =>
          rw [runWith_leaf]
          cases hbe : b (set_input d input) with
          | ok r =>
              dsimp only
              exact hb _ r hbe
          | error e =>
              dsimp only
              intro hsuc
              simp [handle_error] at hsuc
    | pipe cs d res pf lr =>
        cases hn with
        | pipe hcs hlr =>
          cases cs with
          | nil =>
              rw [runWith_pipe, pipeRunWith_nil]
              dsimp only
              by_cases hpf : pf = true <;>
                cases lr with
                | none => simp [pipe_final_result, hpf, handle_error, resultNorm]
                | some r =>
                    simp only [pipe_final_result, hpf]
                    first
                    | (simp only [if_pos, if_true]
                       exact hlr r rfl)
                    | (intro h
                       rfl)
          | cons c0 cs0 =>
              rw [pipe_run_eq]
              cases hsp : pipeSpecRun m c0 cs0
                  (pipe_last_output (set_input d input) lr) with
              | mk rl cs' =>
                dsimp only
                have hrl : resultNorm rl := by
                  have h := pipeSpecRun_norm m cs0 c0
                      (pipe_last_output (set_input d input) lr)
                      (fun x hx inp =>
                        ihn (sizeOf x)
                          (lt_of_lt_of_le (sizeOf_mem_pipe hx d res pf lr) hsz)
                          x le_rfl (hcs x hx) m inp)
                  rw [hsp] at h
                  exact h
                by_cases hf : (pf || !rl.succeeded) = true
                · rw [if_pos hf]
                  exact hrl
                · rw [if_neg hf]
                  intro h
                  rfl
    | seq cs op collect outs d res =>
        cases cs with
        | nil =>
            rw [runWith_seq, seqRunWith_nil]
            dsimp only
            intro hsuc
            simp [handle_error] at hsuc
        | cons c0 cs0 =>
            rw [seq_run_eq]
            cases hse : seqExec m op c0 cs0 with
            | mk last rest =>
              cases rest with
              | mk rs cs' =>
                dsimp only
                intro h
                rfl
    | par cs collect d res =>
        rw [runWith_par]
        by_cases hm : m = true
        · simp only [hm, if_true]
          intro hsuc
          simp [handle_error] at hsuc
        · simp only [hm, if_false, Bool.false_eq_true]
          cases hpr : parRun cs with
          | mk cs' results =>
            dsimp only
            intro h
            rfl

theorem seq_continue_none (r : CommandResult) :
    seq_continue Option.none r = true := by
  simp [seq_continue]

theorem seqExec_spec (m : Bool) (operator : Option Op) :
    ∀ (cs : List Cmd) (c : Cmd) (last : CommandResult)
      (rs : List CommandResult) (cs' : List Cmd),
    seqExec m operator c cs = (last, rs, cs') →
      rs ≠ []
      ∧ rs.getLast? = some last
      ∧ cs'.length = (c :: cs).length
      ∧ cs'.drop rs.length = (c :: cs).drop rs.length
      ∧ rs.length ≤ (c :: cs).length
      ∧ (∀ r ∈ rs.dropLast, seq_continue operator r = true)
      ∧ (operator = Option.none → rs.length = (c :: cs).length) := by
  intro cs
  induction cs with
  | nil =>
      intro c last rs cs' h
      simp only [seqExec] at h
      cases hr : c.runWith m Val.none with
      | mk r c' =>
        rw [hr] at h
        dsimp only at h
        simp only [Prod.mk.injEq] at h
        obtain ⟨h1, h2, h3⟩ := h
        subst h1; subst h2; subst h3
        simp
  | cons c2 cs2 ih =>
      intro c last rs cs' h
      simp only [seqExec] at h
      cases hr : c.runWith m Val.none with
      | mk r c' =>
        rw [hr] at h
        dsimp only at h
        by_cases hs : seq_continue operator r = true
        · rw [if_pos hs] at h
          cases hse : seqExec m operator c2 cs2 with
          | mk last2 rest =>
            cases rest with
            | mk rs2 cs2' =>
              rw [hse] at h
              dsimp only at h
              simp only [Prod.mk.injEq] at h
              obtain ⟨h1, h2, h3⟩ := h
              subst h1; subst h2; subst h3
              obtain ⟨hne, hlast, hlen, hdrop, hle, hcont, hall⟩ :=
                ih c2 last2 rs2 cs2' hse
              cases rs2 with
              | nil => exact absurd rfl hne
              | cons r2 rs3 =>
                refine ⟨by simp, ?_, by simp [hlen], ?_, ?_, ?_, ?_⟩
                · rw [List.getLast?_cons_cons]
                  exact hlast
                · simp only [List.length_cons, List.drop_succ_cons]
                  exact hdrop
                · simp only [List.length_cons] at hle ⊢
                  omega
                · intro x hx
                  rw [List.dropLast_cons_of_ne_nil (by simp)] at hx
                  cases hx with
                  | head => exact hs
                  | tail _ hx2 => exact hcont x hx2
                · intro hop
                  simp only [List.length_cons] at hall ⊢
                  have := hall hop
                  omega
        · rw [if_neg hs] at h
          simp only [Prod.mk.injEq] at h
          obtain ⟨h1, h2, h3⟩ := h
          subst h1; subst h2; subst h3
          refine ⟨by simp, by simp, by simp, by simp, by simp, by simp, ?_⟩
          intro hop
          subst hop
          exact absurd (seq_continue_none r) hs

theorem seq_continue_and (r : CommandResult) :
    seq_continue (some Op.andOp) r = r.succeeded := by
  cases hr : r.succeeded <;> simp [seq_continue, hr]

theorem seq_continue_or (r : CommandResult) :
    seq_continue (some Op.orOp) r = !r.succeeded := by
  cases hr : r.succeeded <;> simp [seq_continue, hr]

theorem resultOf_withResult (c : Cmd) (r : Option CommandResult) :
    (c.withResult r).resultOf = r := by
  cases c <;> rfl

/-- C2: in a `SequentialCommand` run with operator `&&`, no child after
the first failing child executes; with `||`, no child after the first
succeeding child executes; with operator `None` every child executes
and the aggregate `succeeded` is `true` regardless of the children's
outcomes. Stated via `seqExec`, the executed prefix of the run: the run
is assembled from exactly the executed children, the children past the
executed prefix are left untouched, every non-final executed result
passed the operator's continuation test, and with operator `None` the
executed prefix is the whole child list. -/
theorem C2_sequential_operator_short_circuit (m : Bool)
    (operator : Option Op) (collect : Bool) (c : Cmd) (cs : List Cmd)
    (input : Val) (last : CommandResult) (rs : List CommandResult)
    (cs' : List Cmd)
    (h : seqExec m operator c cs = (last, rs, cs')) :
    ((Cmd.seq (c :: cs) operator collect [] Val.none Option.none).runWith m
        input).fst
      = { output := Val.list
            (if collect then rs.map (·.output) else [last.output]),
          succeeded := if operator.isSome then last.succeeded else true }
    ∧ ((Cmd.seq (c :: cs) operator collect [] Val.none Option.none).runWith m
        input).snd.childrenOf = cs'
    ∧ cs'.drop rs.length = (c :: cs).drop rs.length
    ∧ (operator = some Op.andOp → ∀ r ∈ rs.dropLast, r.succeeded = true)
    ∧ (operator = some Op.orOp → ∀ r ∈ rs.dropLast, r.succeeded = false)
    ∧ (operator = Option.none →
        rs.length = (c :: cs).length
        ∧ ((Cmd.seq (c :: cs) operator collect [] Val.none
            Option.none).runWith m input).fst.succeeded = true) := by
  obtain ⟨hne, hlast, hlen, hdrop, hle, hcont, hall⟩ :=
    seqExec_spec m operator cs c last rs cs' h
  have hfst :
      ((Cmd.seq (c :: cs) operator collect [] Val.none Option.none).runWith m
          input).fst
        = { output := Val.list
              (if collect then rs.map (·.output) else [last.output]),
            succeeded := if operator.isSome then last.succeeded else true } := by
    rw [seq_run_eq, h]
    by_cases hcol : collect = true <;> simp [hcol, seq_final_result]
  have hsnd :
      ((Cmd.seq (c :: cs) operator collect [] Val.none Option.none).runWith m
          input).snd.childrenOf = cs' := by
    rw [seq_run_eq, h]
    by_cases hcol : collect = true <;> simp [hcol, seq_final_result, Cmd.childrenOf]
  refine ⟨hfst, hsnd, hdrop, ?_, ?_, ?_⟩
  · intro hop r hr
    have := hcont r hr
    rw [hop, seq_continue_and] at this
    exact this
  · intro hop r hr
    have := hcont r hr
    rw [hop, seq_continue_or] at this
    simpa using this
  · intro hop
    refine ⟨hall hop, ?_⟩
    rw [hfst, hop]
    rfl

/-- Witness for C2 at a concrete `&&` sequence whose second child fails. -/
theorem C2_witness :
    seqExec false (some Op.andOp) (boolLeaf true) [boolLeaf false, boolLeaf true]
      = ({ output := Val.none, succeeded := false },
         [{ output := Val.none }, { output := Val.none, succeeded := false }],
         [(boolLeaf true).withResult (some { output := Val.none }),
          (boolLeaf false).withResult
            (some { output := Val.none, succeeded := false }),
          boolLeaf true])
    ∧ ((Cmd.seq [boolLeaf true, boolLeaf false, boolLeaf true]
          (some Op.andOp) false [] Val.none Option.none).runWith false
          Val.none).fst
        = { output := Val.list [Val.none], succeeded := false } := by
  have h : seqExec false (some Op.andOp) (boolLeaf true)
      [boolLeaf false, boolLeaf true]
      = ({ output := Val.none, succeeded := false },
         [{ output := Val.none }, { output := Val.none, succeeded := false }],
         [(boolLeaf true).withResult (some { output := Val.none }),
          (boolLeaf false).withResult
            (some { output := Val.none, succeeded := false }),
          boolLeaf true]) := by
    simp [seqExec, runWith_leaf, boolLeaf, set_input, seq_continue,
      Cmd.withResult]
  refine ⟨h, ?_⟩
  have := (C2_sequential_operator_short_circuit false (some Op.andOp) false
    (boolLeaf true) [boolLeaf false, boolLeaf true] Val.none _ _ _ h).1
  simpa using this

/-- C5: `Sequential([Sequential([A,B],AND), Sequential([C,D],AND)], OR)`
evaluates like the boolean expression `(A&&B)||(C&&D)` over the
children's success flags: the aggregate `succeeded` is exactly
`(a && b) || (c && d)`, the first inner sequence always executes, and
the second inner sequence executes exactly when the first one's
aggregate `succeeded` is false. -/
theorem C5_nested_sequential_boolean (a b c d : Bool) :
    ((Cmd.seq
        [Cmd.seq [boolLeaf a, boolLeaf b] (some Op.andOp) false [] Val.none
           Option.none,
         Cmd.seq [boolLeaf c, boolLeaf d] (some Op.andOp) false [] Val.none
           Option.none]
        (some Op.orOp) false [] Val.none Option.none).runWith false
        Val.none).fst.succeeded
      = ((a && b) || (c && d))
    ∧ ((Cmd.seq
        [Cmd.seq [boolLeaf a, boolLeaf b] (some Op.andOp) false [] Val.none
           Option.none,
         Cmd.seq [boolLeaf c, boolLeaf d] (some Op.andOp) false [] Val.none
           Option.none]
        (some Op.orOp) false [] Val.none Option.none).runWith false
        Val.none).snd.childrenOf.map (fun x => x.resultOf.isSome)
      = [true, !(a && b)] := by
  cases a <;> cases b <;> cases c <;> cases d <;>
    constructor <;>
      simp [runWith_seq, seqRunWith_cons, seqRunWith_nil, runWith_leaf,
        boolLeaf, set_input, seq_continue, seq_final_result, Cmd.childrenOf,
        Cmd.resultOf]

/-- Counterexample to C8: a `SequentialCommand` run with a non-null
shared input does not pass that input to its children — the child keeps
its own stored `input_data`. Here the (echoing) child outputs its own
stored input, not the Sequential's. -/
theorem C8_counterexample :
    ((Cmd.seq [echoLeaf (Val.str "own")] (some Op.andOp) false [] Val.none
        Option.none).runWith false (Val.str "shared")).fst.output
      = Val.list [Val.str "own"]
    ∧ Val.list [Val.str "own"] ≠ Val.list [Val.str "shared"] := by
  constructor
  · simp [runWith_seq, seqRunWith_cons, seqRunWith_nil, runWith_leaf,
      echoLeaf, set_input, seq_continue, seq_final_result]
  · intro h
    simp at h

/-- C8 (amended): every child of a `SequentialCommand` is invoked with
no input argument (`None`), so each child runs on its own stored
`input_data`; the Sequential's own input is never forwarded, and in
particular the produced result and updated children are independent of
the input the Sequential was run with. -/
theorem C8_sequential_children_run_without_input (m : Bool)
    (operator : Option Op) (collect : Bool) (c : Cmd) (cs : List Cmd)
    (outs0 : List Val) (d0 : Val) (r0 : Option CommandResult)
    (input₁ input₂ : Val) :
    (((Cmd.seq (c :: cs) operator collect outs0 d0 r0).runWith m
        input₁).fst
      = ((Cmd.seq (c :: cs) operator collect outs0 d0 r0).runWith m
        input₂).fst)
    ∧ (((Cmd.seq (c :: cs) operator collect outs0 d0 r0).runWith m
        input₁).snd.childrenOf
      = (seqExec m operator c cs).2.2) := by
  cases hse : seqExec m operator c cs with
  | mk last rest =>
    cases rest with
    | mk rs cs' =>
      constructor
      · rw [seq_run_eq, seq_run_eq, hse]
      · rw [seq_run_eq, hse]
        cases hfr : seq_final_result operator collect
            (if collect then outs0 ++ rs.map (·.output) else outs0) last with
        | mk r outs2 => rfl

/-- Counterexample to C1. Two defects at concrete inputs. First, when
every child succeeds the pipe builds a fresh final result that does not
copy `error_message` (or `error`) from the last executed child: a child
succeeding with an `error_message` loses it. Second, on a second run of
the same instance the first child is fed the previous run's last output
(`_last_result.output`), not the pipe's initial input: an echoing child
reports the first run's input on the second run. -/
theorem C1_counterexample :
    (((Cmd.pipe [warnLeaf] Val.none Option.none false Option.none).runWith
        false Val.none).fst.error_message = Option.none)
    ∧ ((warnLeaf.runWith false Val.none).fst.error_message = some "warning")
    ∧ (((Cmd.pipe [echoLeaf (Val.str "x")] Val.none Option.none false
          Option.none).runWith false (Val.str "first")).snd.runWith false
          (Val.str "init")).fst.output = Val.str "first"
    ∧ Val.str "first" ≠ Val.str "init" := by
  refine ⟨?_, ?_, ?_, by simp⟩
  · simp [runWith_pipe, pipeRunWith_cons, pipeRunWith_nil, runWith_leaf,
      warnLeaf, pipe_last_output, pipe_final_result, set_input]
  · simp [runWith_leaf, warnLeaf, set_input]
  · simp [runWith_pipe, pipeRunWith_cons, pipeRunWith_nil, runWith_leaf,
      echoLeaf, pipe_last_output, pipe_final_result, set_input]

/-- C1 (amended): a freshly constructed `PipeCommand`'s run executes
its children in order, each invoked with the previous child's output
(the first with the pipe's effective initial input), stops at the first
child whose result has `succeeded=false` leaving the later children
untouched, and returns: on failure, exactly the failing child's result
(all fields); on success, a fresh result holding the last child's
output with `succeeded=true` and null `error`/`error_message`. -/
theorem C1_pipe_first_run (m : Bool) (c0 : Cmd) (cs : List Cmd)
    (d input : Val) :
    (Cmd.pipe (c0 :: cs) d Option.none false Option.none).runWith m input =
      (match pipeSpecRun m c0 cs (set_input d input) with
       | (rl, cs') =>
         let final := if rl.succeeded then ({ output := rl.output } : CommandResult)
                      else rl
         (final, .pipe cs' (set_input d input) (some final)
            (!rl.succeeded) (some rl))) := by
  rw [pipe_run_eq]
  cases hsp : pipeSpecRun m c0 cs (pipe_last_output (set_input d input)
      Option.none) with
  | mk rl cs' =>
    have hplo : pipe_last_output (set_input d input) Option.none
        = set_input d input := rfl
    rw [hplo] at hsp
    rw [hsp]
    by_cases hs : rl.succeeded = true <;> simp [hs]

/-- C3: a fault raised by a command's execution logic is caught by the
`run` wrapper and normalized to
`CommandResult(output=None, succeeded=False, error=<fault>,
error_message=str(<fault>))`; a fault raised inside a child of a
composite surfaces to the composite's caller only as that normalized
result — here, a pipe whose first child always raises returns exactly
the normalized failure result, whatever the remaining children are. -/
theorem C3_run_normalizes_faults (m : Bool)
    (b : Val → Except Exc CommandResult) (d : Val)
    (r0 : Option CommandResult) (input : Val) (e : Exc)
    (hb : ∀ v, b v = .error e) :
    ((Cmd.leaf b d r0).runWith m input).fst
      = { output := Val.none, succeeded := false, error := some e,
          error_message := some e.msg }
    ∧ ∀ (rest : List Cmd) (dp inp : Val),
        ((Cmd.pipe (Cmd.leaf b d r0 :: rest) dp Option.none false
            Option.none).runWith m inp).fst
          = { output := Val.none, succeeded := false, error := some e,
              error_message := some e.msg } := by
  constructor
  · rw [runWith_leaf, hb]
    rfl
  · intro rest dp inp
    rw [pipe_run_eq]
    cases rest with
    | nil =>
        simp [pipeSpecRun, runWith_leaf, hb, handle_error]
    | cons c2 cs2 =>
        simp [pipeSpecRun, runWith_leaf, hb, handle_error]

/-- Witness for C3: `ErrorCommand(raise_error=True)` run on its own is
normalized to the failure result carrying the raised `SystemError`. -/
theorem C3_witness :
    ((Cmd.leaf raiseB Val.none Option.none).runWith false Val.none).fst
      = { output := Val.none, succeeded := false,
          error := some (.systemError "Error from ErrorCommand"),
          error_message := some "Error from ErrorCommand" } := by
  have := (C3_run_normalizes_faults false raiseB Val.none Option.none
    Val.none (.systemError "Error from ErrorCommand") (fun _ => rfl)).1
  simpa [Exc.msg] using this

/-- C4: after a `ParallelCommand` run the aggregate result always has
`succeeded=true` and no error regardless of child failures; its output
is the ordered sequence of the children's outputs (in input order, the
order `pool.map` preserves) when output collection is enabled and
`None` otherwise; and each original child object's `result` attribute
is set to exactly the `CommandResult` its process returned. -/
theorem C4_parallel_aggregation (cs : List Cmd) (collect : Bool)
    (d0 : Val) (r0 : Option CommandResult) (input : Val) :
    ((Cmd.par cs collect d0 r0).runWith false input).fst.succeeded = true
    ∧ ((Cmd.par cs collect d0 r0).runWith false input).fst.error
        = Option.none
    ∧ ((Cmd.par cs collect d0 r0).runWith false input).fst.output
        = (if collect then
            Val.list (cs.map (fun c => ((c.runWith false Val.none).fst).output))
           else Val.none)
    ∧ ((Cmd.par cs collect d0 r0).runWith false input).snd.childrenOf.map
        Cmd.resultOf
        = cs.map (fun c => some ((c.runWith false Val.none).fst)) := by
  have hrun := runWith_par false cs collect d0 r0 input
  rw [parRun_eq] at hrun
  simp only [if_neg (by simp : ¬(false = true))] at hrun
  refine ⟨?_, ?_, ?_, ?_⟩ <;> rw [hrun]
  · dsimp only
    by_cases hc : collect = true <;> simp [hc]
  · simp [Cmd.childrenOf, resultOf_withResult, Function.comp]

/-- Counterexample to C6: `ParallelCommand` accepts an *empty* child
list at construction (only `None` is rejected), and running the
resulting command returns a successful result rather than failing. -/
theorem C6_counterexample :
    ParallelCommand.mk (some []) false
      = .ok (Cmd.par [] false Val.none Option.none)
    ∧ (∀ e : Exc, ParallelCommand.mk (some []) false ≠ .error e)
    ∧ ((Cmd.par [] false Val.none Option.none).runWith false Val.none).fst
        = { output := Val.none } := by
  refine ⟨rfl, ?_, ?_⟩
  · intro e h
    simp [ParallelCommand.mk] at h
  · rw [runWith_par]
    simp [parRun, set_input]

/-- C6 (amended): `PipeCommand` and `SequentialCommand` reject a `None`
or empty child list at construction with `ValueError` (the
`InvalidArgument` condition); `ParallelCommand` rejects only `None` —
an empty child list is accepted at construction and a run of the
resulting command returns a successful (empty) result, not a fault. -/
theorem C6_empty_children_construction :
    (∀ d, PipeCommand.mk Option.none d
        = .error (.valueError "Commands list cannot be None or empty")
      ∧ PipeCommand.mk (some []) d
        = .error (.valueError "Commands list cannot be None or empty"))
    ∧ (∀ op collect, SequentialCommand.mk Option.none op collect
        = .error (.valueError "Commands list cannot be None or empty")
      ∧ SequentialCommand.mk (some []) op collect
        = .error (.valueError "Commands list cannot be None or empty"))
    ∧ (∀ collect, ParallelCommand.mk Option.none collect
        = .error (.valueError "Commands list cannot be None"))
    ∧ (∀ collect cs, ParallelCommand.mk (some cs) collect
        = .ok (Cmd.par cs collect Val.none Option.none))
    ∧ (∀ collect input,
        ((Cmd.par [] collect Val.none Option.none).runWith false input).fst
          = { output := if collect then Val.list [] else Val.none }) := by
  refine ⟨fun d => ⟨rfl, rfl⟩, fun op collect => ⟨rfl, rfl⟩,
    fun collect => rfl, fun collect cs => rfl, ?_⟩
  intro collect input
  rw [runWith_par]
  by_cases hc : collect = true <;> simp [hc, parRun, set_input]

/-- Counterexample to C7: invoking a `ParallelCommand` through the
suspendable path does *not* surface a raised fault to the caller — the
`async_run` wrapper catches the `TypeError` raised by `_async_run` and
the caller receives a normalized failure `CommandResult` carrying that
`TypeError`. -/
theorem C7_counterexample :
    ((Cmd.par [boolLeaf true] false Val.none Option.none).runWith true
        Val.none).fst
      = { output := Val.none, succeeded := false,
          error := some (.typeError "ParallelCommand does not support async run"),
          error_message := some "ParallelCommand does not support async run" } := by
  rw [runWith_par]
  simp [handle_error, Exc.msg, set_input]

/-- C7 (amended): the suspendable path of `ParallelCommand` always
produces the fixed `TypeError("ParallelCommand does not support async
run")`, which the `async_run` wrapper catches and returns as the
normalized failure result (output `None`, `succeeded=false`, `error` =
the `TypeError`); no child is executed and no fault reaches the
caller. -/
theorem C7_parallel_async_unsupported (cs : List Cmd) (collect : Bool)
    (d0 : Val) (r0 : Option CommandResult) (input : Val) :
    (Cmd.par cs collect d0 r0).runWith true input
      = (handle_error (.typeError "ParallelCommand does not support async run"),
         .par cs collect (set_input d0 input)
           (some (handle_error
             (.typeError "ParallelCommand does not support async run")))) := by
  rw [runWith_par]
  simp

/-- Counterexample to C9: a failing `SequentialCommand` result's
`output` is not the failure default (`None`) — it is the list of
outputs collected so far, which can carry real data from the
successful children (here `["A", None]`, the spec's own §8 scenario). -/
theorem C9_counterexample :
    ((Cmd.seq [addChar "A", failLeaf, addChar "C"] (some Op.andOp) true []
        Val.none Option.none).runWith false Val.none).fst.succeeded = false
    ∧ ((Cmd.seq [addChar "A", failLeaf, addChar "C"] (some Op.andOp) true []
        Val.none Option.none).runWith false Val.none).fst.output
        = Val.list [Val.str "A", Val.none]
    ∧ Val.list [Val.str "A", Val.none] ≠ Val.none := by
  refine ⟨?_, ?_, by simp⟩ <;>
    simp [runWith_seq, seqRunWith_cons, seqRunWith_nil, runWith_leaf,
      addChar, failLeaf, strOf, set_input, seq_continue, seq_final_result]

/-- C9 (amended): for every command tree whose leaves (and stored
pipe `_last_result`s) only carry results satisfying "`succeeded=true`
implies `error` is null", every result any run produces also satisfies
it; and a fault-normalized failure result always has `output=None` and
`succeeded=false`. (A failing Sequential's `output`, by contrast, is
its collected outputs list — see the counterexample.) -/
theorem C9_result_invariant (c : Cmd) (hc : NormOk c) (m : Bool)
    (input : Val) (e : Exc) :
    resultNorm ((c.runWith m input).fst)
    ∧ (handle_error e).output = Val.none
    ∧ (handle_error e).succeeded = false :=
  ⟨runWith_norm_aux (sizeOf c) c le_rfl hc m input, rfl, rfl⟩

/-- Witness for C9 at a concrete pipe of an appending child and a
failing child. -/
theorem C9_witness :
    NormOk (Cmd.pipe [addChar "A", failLeaf] Val.none Option.none false
      Option.none)
    ∧ resultNorm (((Cmd.pipe [addChar "A", failLeaf] Val.none Option.none
        false Option.none).runWith false Val.none).fst) := by
  have hn : NormOk (Cmd.pipe [addChar "A", failLeaf] Val.none Option.none
      false Option.none) := by
    refine NormOk.pipe ?_ (by intro r h; cases h)
    intro x hx
    simp only [List.mem_cons, List.mem_singleton] at hx
    rcases hx with h | h | h
    · subst h
      refine NormOk.leaf ?_
      intro v r h
      simp only [addChar, Except.ok.injEq] at h
      subst h
      intro _
      rfl
    · subst h
      refine NormOk.leaf ?_
      intro v r h
      simp only [failLeaf, Except.ok.injEq] at h
      subst h
      intro hs
      simp at hs
    · cases h
  exact ⟨hn, (C9_result_invariant _ hn false Val.none
    (.valueError "unused")).1⟩

/-- C10: composite instances retain mutable per-run state. For a
`SequentialCommand` with output collection enabled, the second run's
output list extends the first run's (the `_outputs` accumulator is
never reset). For a `PipeCommand`, a run whose result failed leaves
`_pipeline_failed=true`, and once that flag is set every run returns
the failure-path final result — the raw result of the run's last
executed child (`pipeSpecRun ...`) — and keeps the flag, even when
every child of the rerun succeeds. -/
theorem C10_state_retention (m : Bool) (sc : Cmd) (scs : List Cmd)
    (sop : Option Op) (pm : Bool) (pc : Cmd) (pcs : List Cmd) (pd : Val)
    (pr0 lr lr₀ : Option CommandResult) (pinput input₀ : Val)
    (hfail : (((Cmd.pipe (pc :: pcs) pd pr0 false lr₀).runWith pm
        input₀).fst).succeeded = false) :
    (∃ l1 l2,
      ((Cmd.seq (sc :: scs) sop true [] Val.none Option.none).runWith m
          Val.none).fst.output = Val.list l1
      ∧ l1 ≠ []
      ∧ l2 ≠ []
      ∧ (((Cmd.seq (sc :: scs) sop true [] Val.none Option.none).runWith m
          Val.none).snd.runWith m Val.none).fst.output = Val.list (l1 ++ l2))
    ∧ ((Cmd.pipe (pc :: pcs) pd pr0 false lr₀).runWith pm
        input₀).snd.pipelineFailedOf = true
    ∧ ((Cmd.pipe (pc :: pcs) pd pr0 true lr).runWith pm
        pinput).snd.pipelineFailedOf = true
    ∧ ((Cmd.pipe (pc :: pcs) pd pr0 true lr).runWith pm pinput).fst
        = (pipeSpecRun pm pc pcs
            (pipe_last_output (set_input pd pinput) lr)).fst := by
  refine ⟨?_, ?_, ?_, ?_⟩
  · -- Sequential accumulator growth
    cases hse : seqExec m sop sc scs with
    | mk last rest =>
      cases rest with
      | mk rs cs' =>
        obtain ⟨hne, hlast, hlen, hdrop, hle, hcont, hall⟩ :=
          seqExec_spec m sop scs sc last rs cs' hse
        cases cs' with
        | nil => simp at hlen
        | cons c1' cs1' =>
          cases hse2 : seqExec m sop c1' cs1' with
          | mk last2 rest2 =>
            cases rest2 with
            | mk rs2 cs2' =>
              obtain ⟨hne2, _, _, _, _, _, _⟩ :=
                seqExec_spec m sop cs1' c1' last2 rs2 cs2' hse2
              refine ⟨rs.map (·.output), rs2.map (·.output), ?_,
                by simpa using hne, by simpa using hne2, ?_⟩
              · rw [seq_run_eq, hse]
                simp [seq_final_result]
              · rw [seq_run_eq, hse]
                dsimp only
                simp only [seq_final_result, if_pos rfl, List.nil_append,
                  Option.isSome]
                rw [seq_run_eq, hse2]
                simp [seq_final_result]
  · -- a failing run sets _pipeline_failed
    have h := pipe_run_eq pm pc pcs pd pr0 false lr₀ input₀
    rw [h] at hfail ⊢
    cases hsp : pipeSpecRun pm pc pcs (pipe_last_output
        (set_input pd input₀) lr₀) with
    | mk rl cs' =>
      rw [hsp] at hfail
      dsimp only at hfail ⊢
      by_cases hs : rl.succeeded = true
      · simp [hs] at hfail
      · simp [hs, Cmd.pipelineFailedOf]
  · -- the flag is never cleared
    rw [pipe_run_eq]
    cases hsp : pipeSpecRun pm pc pcs (pipe_last_output
        (set_input pd pinput) lr) with
    | mk rl cs' => simp [Cmd.pipelineFailedOf]
  · -- with the flag set the run returns the loop's raw last result
    rw [pipe_run_eq]
    cases hsp : pipeSpecRun pm pc pcs (pipe_last_output
        (set_input pd pinput) lr) with
    | mk rl cs' => simp

/-- Witness for C10: a fresh single-child pipe whose child reports
failure; the run fails and leaves `_pipeline_failed` set. -/
theorem C10_witness :
    ((Cmd.pipe [failLeaf] Val.none Option.none false Option.none).runWith
        false Val.none).fst.succeeded = false
    ∧ ((Cmd.pipe [failLeaf] Val.none Option.none false Option.none).runWith
        false Val.none).snd.pipelineFailedOf = true := by
  have hfail : ((Cmd.pipe [failLeaf] Val.none Option.none false
      Option.none).runWith false Val.none).fst.succeeded = false := by
    simp [runWith_pipe, pipeRunWith_cons, pipeRunWith_nil, runWith_leaf,
      failLeaf, pipe_last_output, pipe_final_result, set_input]
  exact ⟨hfail, (C10_state_retention false (boolLeaf true) []
    (some Op.andOp) false failLeaf [] Val.none Option.none Option.none
    Option.none Val.none Val.none hfail).2.1⟩
